import Mathlib

/-!
Verification of the sequence generator in `Test Sequence/testseq.py`.

The Python source is shallowly embedded: the process-wide random source
`random_instance` is modelled as an oracle `RSrc` holding a stream of integer
draws (used by `randint`, modelled as `a + k % (b - a + 1)`) and a stream of
rational draws (used by `random()`), both indexed by the number of draws
consumed so far; machine floats are modelled as exact rationals.  Sequences
are lists of characters.  Python operations that can raise (indexing an empty
list via `randint(0, -1)`, walking past the end of the probability table) are
modelled with `Option`.  The external collaborators (`Bio.Alphabet.IUPAC`
letter data and `Bio.Data.CodonTable`) are modelled as parameters: a
`TableData` value stands for the resolved codon-table lookup, and the IUPAC
letter strings are transcribed from the published IUPAC alphabet data.
-/

/-- The process-wide random source `random_instance`, as an oracle. -/
structure RSrc where
  gInts : Nat → Nat
  gFloats : Nat → ℚ

/-- Python list indexing: nonnegative indices from the front, negative indices
from the back, out of range is an error (`none`). -/
def pyGet (l : List α) (i : Int) : Option α :=
  if 0 ≤ i then l.get? i.toNat
  else if (-i).toNat ≤ l.length then l.get? (l.length - (-i).toNat)
  else none

/-- Python slice `l[-n:]`: the last `n` elements (the whole list when it is
shorter than `n`). -/
def lastN (n : Nat) (l : List α) : List α := l.drop (l.length - n)

/-- The complete aligned 3-symbol codons of a sequence (offsets 0, 3, 6, ...);
a trailing partial codon is dropped. -/
def alignedCodons : List Char → List (List Char)
  | a :: b :: c :: rest => [a, b, c] :: alignedCodons rest
  | _ => []

/-- The molecule kinds, mirroring the six `Bio.Alphabet.IUPAC` alphabets the
source dispatches on. -/
inductive Alphabet
  | unambiguousDna
  | ambiguousDna
  | unambiguousRna
  | ambiguousRna
  | protein
  | extendedProtein
deriving DecidableEq

/-- The three boolean kind flags of `_SeqType` (lines 333-347).  For the six
IUPAC alphabets exactly one flag is true, so the `TypeError` branch of the
source is unreachable in this model. -/
structure SeqType where
  dna : Bool
  rna : Bool
  protein : Bool
deriving DecidableEq

/-- `_SeqType.__init__`: classify an alphabet. -/
def seqType : Alphabet → SeqType
  | .unambiguousDna => ⟨true, false, false⟩
  | .ambiguousDna => ⟨true, false, false⟩
  | .unambiguousRna => ⟨false, true, false⟩
  | .ambiguousRna => ⟨false, true, false⟩
  | .protein => ⟨false, false, true⟩
  | .extendedProtein => ⟨false, false, true⟩

/-- The `letters` attribute of each IUPAC alphabet, transcribed from the
external `Bio.Alphabet.IUPAC` / `Bio.Data.IUPACData` collaborator. -/
def alphabetLetters : Alphabet → List Char
  | .unambiguousDna => "GATC".toList
  | .ambiguousDna => "GATCRYWSMKHBVDN".toList
  | .unambiguousRna => "GAUC".toList
  | .ambiguousRna => "GAUCRYWSMKHBVDN".toList
  | .protein => "ACDEFGHIKLMNPQRSTVWY".toList
  | .extendedProtein => "ACDEFGHIKLMNPQRSTVWYBXZJUO".toList

/-- The four unambiguous DNA letters, used by `_CodonSet._get_non_codons`. -/
def dnaLetters4 : List Char := "GATC".toList

/-- The four unambiguous RNA letters, used by `_CodonSet._get_non_codons`. -/
def rnaLetters4 : List Char := "GAUC".toList

/-- `_Letter` (lines 418-426): a letter paired with its probability. -/
structure PLetter where
  letter : Char
  p : ℚ
deriving DecidableEq

/-- `_construct_probability_table` (lines 273-291): raw weights from the GC
target, then normalization by the sum of the raw weights. -/
def constructProbabilityTable (α : Alphabet) (gcTarget : ℚ) : List PLetter :=
  let gcNtTotal : ℚ := if α = .ambiguousDna ∨ α = .ambiguousRna then 3 else 2
  let ls := alphabetLetters α
  let total : ℚ := (ls.length : ℚ) - gcNtTotal
  let raw := ls.map fun c =>
    PLetter.mk c
      (if c = 'G' ∨ c = 'C' ∨ c = 'S' then gcTarget / gcNtTotal
        else (100 - gcTarget) / total)
  let s := (raw.map PLetter.p).sum
  raw.map fun l => PLetter.mk l.letter (l.p / s)

/-- The number of iterations of the `while roll > 0` loop of `_pick_one`
(lines 296-300): subtract weights in order until the remainder drops to 0 or
below; walking past the end of the table is Python's `IndexError` (`none`).
The `roll ≤ 0` exit is checked before the table access, as in the source. -/
def pickSteps : List PLetter → ℚ → Option Nat
  | [], roll => if roll ≤ 0 then some 0 else none
  | l :: ls, roll =>
    if roll ≤ 0 then some 0 else (pickSteps ls (roll - l.p)).map (· + 1)

/-- `_pick_one` (lines 294-302): run the walk on one `random()` draw, then
index the table at (iteration count - 1), which Python resolves as the last
entry when the count is 0. -/
def pickOne (t : List PLetter) (roll : ℚ) : Option Char :=
  (pickSteps t roll).bind fun j => (pyGet t ((j : Int) - 1)).map PLetter.letter

/-- All 64 ordered triples over the given letters, in the nesting order of the
three `for` loops of `_CodonSet._get_non_codons` (lines 388-391). -/
def allCodons (ls : List Char) : List (List Char) :=
  ls.flatMap fun n1 => ls.flatMap fun n2 => ls.map fun n3 => [n1, n2, n3]

/-- `_CodonSet._get_non_codons` (lines 381-397): all triples over the four
unambiguous letters that are not string-equal to an exception codon. -/
def getNonCodons (ls : List Char) (exceptions : List (List Char)) :
    List (List Char) :=
  (allCodons ls).filter fun c => decide (c ∉ exceptions)

/-- The result of the external `Bio.Data.CodonTable` lookup performed by
`_CodonSet._get_codon_table` (lines 367-379), together with the external
translation function used by `_translate_codon_sets` (line 407). -/
structure TableData where
  startCodons : List (List Char)
  stopCodons : List (List Char)
  translate : List Char → Char

/-- The four codon lists of a resolved `_CodonSet`. -/
structure CodonSet where
  start : List (List Char)
  stop : List (List Char)
  nonstop : List (List Char)
  nonstart : List (List Char)

/-- The inner `translate_set` of `_CodonSet._translate_codon_sets`
(lines 401-410): a codon set equal (as a list) to the current stop set maps to
the stop symbol, all other codons go through the table's translation. -/
def translateSet (tbl : TableData) (stopSym : Char) (stopRef : List (List Char))
    (cs : List (List Char)) : List (List Char) :=
  cs.map fun c => if cs = stopRef then [stopSym] else [tbl.translate c]

/-- `_CodonSet.__init__` (lines 350-365): fetch start/stop codons, build the
complements, and, for proteins, translate the four sets in the source's order
(start, stop, nonstop, nonstart - the latter two compare against the already
translated stop list). -/
def resolveCodonSet (α : Alphabet) (tbl : TableData) (stopSym : Char) :
    CodonSet :=
  let ty := seqType α
  let ls4 := if ty.rna = true then rnaLetters4 else dnaLetters4
  let start := tbl.startCodons
  let stop := tbl.stopCodons
  let nonstop := getNonCodons ls4 stop
  let nonstart := getNonCodons ls4 start
  if ty.protein = true then
    let start1 := translateSet tbl stopSym stop start
    let stop1 := translateSet tbl stopSym stop stop
    let nonstop1 := translateSet tbl stopSym stop1 nonstop
    let nonstart1 := translateSet tbl stopSym stop1 nonstart
    ⟨start1, stop1, nonstop1, nonstart1⟩
  else ⟨start, stop, nonstop, nonstart⟩

/-- The fixed data of the letter-emission loop (lines 231-243). -/
structure EmitCtx where
  src : RSrc
  letters : List Char
  ptab : Option (List PLetter)
  isProt : Bool
  persistent : Bool
  stopL : List (List Char)
  nonstopL : List (List Char)

/-- One emitted symbol (lines 232-236): a `_pick_one` draw when a GC target is
active on a non-protein alphabet, else a uniform `randint` pick from the
alphabet letters.  Either way one draw is consumed. -/
def emitOne (ctx : EmitCtx) (pos : Nat) : Option (Char × Nat) :=
  match ctx.ptab with
  | some t =>
    match pickOne t (ctx.src.gFloats pos) with
    | some c => some (c, pos + 1)
    | none => none
  | none =>
    match ctx.letters.get? (ctx.src.gInts pos % ctx.letters.length) with
    | some c => some (c, pos + 1)
    | none => none

/-- The in-flight stop-codon scrub (lines 237-243): after a completed codon on
a non-protein alphabet with `persistent` set, a stop codon is replaced by a
`randint`-chosen member of the nonstop list. -/
def scrub (ctx : EmitCtx) (seq : List Char) (pos : Nat) :
    Option (List Char × Nat) :=
  if 3 ≤ seq.length ∧ seq.length % 3 = 0 ∧ ctx.isProt = false ∧
      ctx.persistent = true then
    if lastN 3 seq ∈ ctx.stopL then
      match ctx.nonstopL.get? (ctx.src.gInts pos % ctx.nonstopL.length) with
      | some nc => some (seq.take (seq.length - 3) ++ nc, pos + 1)
      | none => none
    else some (seq, pos)
  else some (seq, pos)

/-- The generation loop `for i in range(size)` (lines 231-243). -/
def emitLoop (ctx : EmitCtx) : Nat → List Char → Nat → Option (List Char × Nat)
  | 0, seq, pos => some (seq, pos)
  | n + 1, seq, pos =>
    match emitOne ctx pos with
    | none => none
    | some (c, pos1) =>
      match scrub ctx (seq ++ [c]) pos1 with
      | none => none
      | some (seq2, pos2) => emitLoop ctx n seq2 pos2

/-- The caller-supplied arguments of `testseq` that matter to the core (the
codon-table id is subsumed by the externally resolved `TableData`). -/
structure Config where
  size : Nat
  alphabet : Alphabet
  gcTarget : Option Int
  persistent : Bool
  fromStart : Bool
  toStop : Bool
  stopSymbol : Char
  truncate : Bool
  messenger : Bool

/-- The out-of-range clamping of `gc_target` (lines 215-224). -/
def clampGC (g : Int) : Int := if g < 0 then 0 else if g > 100 then 100 else g

/-- The probability table is built exactly when a GC target is given and the
alphabet is not a protein one (lines 211-225). -/
def gcProbTable (α : Alphabet) (gcTarget : Option Int) :
    Option (List PLetter) :=
  match gcTarget with
  | none => none
  | some g =>
    if (seqType α).protein = true then none
    else some (constructProbabilityTable α ((clampGC g : Int) : ℚ))

/-- The size reduction of lines 226-228: non-protein sizes are truncated to a
multiple of three when `truncate` is set. -/
def effectiveSize (cfg : Config) : Nat :=
  if (seqType cfg.alphabet).protein = false ∧ cfg.truncate = true then
    cfg.size - cfg.size % 3
  else cfg.size

/-- The width of one codon/residue, `x` of lines 245-247. -/
def codonWidth (α : Alphabet) : Nat :=
  if (seqType α).protein = true then 1 else 3

/-- The canonical start codon preferred by `from_start` (lines 249-255). -/
def kindAug (ty : SeqType) : List Char :=
  if ty.dna = true then ['A', 'T', 'G']
  else if ty.rna = true then ['A', 'U', 'G']
  else ['M']

/-- The start/stop enforcement of lines 248-265 with the codon width `x` and
canonical start codon `aug` already computed: overwrite the first codon with
`aug` when that is in the start set (no draw), else with a `randint`-chosen
start codon; then overwrite the last codon with a `randint`-chosen stop
codon. -/
def forceStart (src : RSrc) (x : Nat) (aug : List Char) (fromStart : Bool)
    (cs : CodonSet) (seq : List Char) (pos : Nat) :
    Option (List Char × Nat) :=
  if fromStart = true then
    if aug ∈ cs.start then some (aug ++ seq.drop x, pos)
    else
      match cs.start.get? (src.gInts pos % cs.start.length) with
      | some st => some (st ++ seq.drop x, pos + 1)
      | none => none
  else some (seq, pos)

def forceStop (src : RSrc) (x : Nat) (toStop : Bool) (cs : CodonSet)
    (s1 : List Char) (p1 : Nat) : Option (List Char × Nat) :=
  if toStop = true then
    match cs.stop.get? (src.gInts p1 % cs.stop.length) with
    | some stp => some (s1.take (s1.length - x) ++ stp, p1 + 1)
    | none => none
  else some (s1, p1)

def enforceWith (src : RSrc) (x : Nat) (aug : List Char)
    (fromStart toStop : Bool) (cs : CodonSet) (seq : List Char) (pos : Nat) :
    Option (List Char × Nat) :=
  (forceStart src x aug fromStart cs seq pos).bind fun s1p =>
    forceStop src x toStop cs s1p.1 s1p.2

/-- The start/stop enforcement (lines 244-265), with `x` of lines 245-247 and
the canonical start codon of lines 249-255. -/
def enforcePhase (src : RSrc) (ty : SeqType) (fromStart toStop : Bool)
    (cs : CodonSet) (seq : List Char) (pos : Nat) :
    Option (List Char × Nat) :=
  enforceWith src (if ty.protein = true then 1 else 3) (kindAug ty)
    fromStart toStop cs seq pos

/-- The 5'-UTR loop of `_add_messenger_parts` (lines 308-320): uniform letters
with accidental start codons replaced by nonstart codons. -/
def utr5Loop (src : RSrc) (ls : List Char) (startL nonstartL : List (List Char)) :
    Nat → List Char → Nat → Option (List Char × Nat)
  | 0, u, pos => some (u, pos)
  | n + 1, u, pos =>
    match ls.get? (src.gInts pos % ls.length) with
    | none => none
    | some c =>
      let u1 := u ++ [c]
      if 3 ≤ u1.length ∧ u1.length % 3 = 0 ∧ lastN 3 u1 ∈ startL then
        match nonstartL.get? (src.gInts (pos + 1) % nonstartL.length) with
        | none => none
        | some nc =>
          utr5Loop src ls startL nonstartL n
            (u1.take (u1.length - 3) ++ nc) (pos + 2)
      else utr5Loop src ls startL nonstartL n u1 (pos + 1)

/-- The 3'-UTR loop of `_add_messenger_parts` (lines 321-324): uniform letters,
no scrubbing. -/
def utr3Loop (src : RSrc) (ls : List Char) :
    Nat → List Char → Nat → Option (List Char × Nat)
  | 0, u, pos => some (u, pos)
  | n + 1, u, pos =>
    match ls.get? (src.gInts pos % ls.length) with
    | none => none
    | some c => utr3Loop src ls n (u ++ [c]) (pos + 1)

/-- The poly-A tail length of line 325: Python's `randint(50, 101)` is
inclusive on both ends, so with the `randint` model `a + k % (b - a + 1)` the
draw is `50 + k % 52`. -/
def polyATailLen (k : Nat) : Nat := 50 + k % 52

/-- `_add_messenger_parts` (lines 305-330): 5'-UTR, coding sequence, 3'-UTR and
poly-A tail, finally trimmed from the end to a multiple of three. -/
def addMessengerParts (src : RSrc) (ls : List Char)
    (startL nonstartL : List (List Char)) (seq : List Char) (size : Nat)
    (pos : Nat) : Option (List Char × Nat) :=
  let utrSize := size / 3
  (utr5Loop src ls startL nonstartL utrSize [] pos).bind fun u5p =>
    (utr3Loop src ls utrSize [] u5p.2).bind fun u3p =>
      let tail := List.replicate (polyATailLen (src.gInts u3p.2)) 'A'
      let t := u5p.1 ++ seq ++ u3p.1 ++ tail
      some (t.take (t.length - t.length % 3), u3p.2 + 1)

/-- The `persistent`/`from_start`/`to_stop` flags after the messenger
interaction rule of lines 201-207 (each forced on for messenger RNA). -/
def resolvedFlag (ty : SeqType) (messenger : Bool) (flag : Bool) : Bool :=
  if ty.rna = true ∧ messenger = true then true else flag

/-- The `messenger` flag after the non-RNA correction of lines 201-203. -/
def resolvedMessenger (ty : SeqType) (messenger : Bool) : Bool :=
  if ty.rna = false then false else messenger

/-- The Emitting phase of `testseq` as invoked with a given configuration:
the loop of lines 231-243 run for the (possibly truncated) size on the
resolved codon sets. -/
def emitPhase (src : RSrc) (tbl : TableData) (cfg : Config) (pos : Nat) :
    Option (List Char × Nat) :=
  let ty := seqType cfg.alphabet
  let messenger := resolvedMessenger ty cfg.messenger
  let persistent := resolvedFlag ty messenger cfg.persistent
  let cs := resolveCodonSet cfg.alphabet tbl cfg.stopSymbol
  emitLoop
    ⟨src, alphabetLetters cfg.alphabet, gcProbTable cfg.alphabet cfg.gcTarget,
      ty.protein, persistent, cs.stop, cs.nonstop⟩
    (effectiveSize cfg) [] pos

/-- The body of `testseq` (lines 196-270) from the point where the random
source is seeded: emit, enforce start/stop, optionally decorate as messenger
RNA, and return the symbol string. -/
def testseqCore (src : RSrc) (tbl : TableData) (cfg : Config) (pos : Nat) :
    Option (List Char) :=
  let ty := seqType cfg.alphabet
  let messenger := resolvedMessenger ty cfg.messenger
  let fromStart := resolvedFlag ty messenger cfg.fromStart
  let toStop := resolvedFlag ty messenger cfg.toStop
  let cs := resolveCodonSet cfg.alphabet tbl cfg.stopSymbol
  (emitPhase src tbl cfg pos).bind fun sp0 =>
    (enforcePhase src ty fromStart toStop cs sp0.1 sp0.2).bind fun sp1 =>
      if messenger = true then
        (addMessengerParts src (alphabetLetters cfg.alphabet) cs.start
          cs.nonstart sp1.1 (effectiveSize cfg) sp1.2).map fun sp2 => sp2.1
      else some sp1.1

/-- The state of the process-wide `random_instance` singleton: its stream and
how far it has been consumed by earlier calls. -/
structure RngState where
  src : RSrc
  offset : Nat

/-- `random_instance.seed(rand_seed)` (line 199): reseeding replaces the whole
state of the singleton by the stream determined by the explicit seed. -/
def seedRng (seedStreams : ℚ → RSrc) (s : ℚ) : RngState := ⟨seedStreams s, 0⟩

/-- `testseq` including the seed handling of lines 196-199: an explicit seed
reseeds the singleton; `rand_seed=None` leaves the call running on whatever
state the `anchor_instance`-derived reseed produced (modelled by the prior
state parameter). -/
def testseqTop (seedStreams : ℚ → RSrc) (prior : RngState)
    (randSeed : Option ℚ) (tbl : TableData) (cfg : Config) :
    Option (List Char) :=
  let st := match randSeed with
    | some s => seedRng seedStreams s
    | none => prior
  testseqCore st.src tbl cfg st.offset

/-- The standard (NCBI table 1) codon table as resolved for unambiguous DNA by
the external `Bio.Data.CodonTable` collaborator; the translation function is
irrelevant for nucleotide kinds and left degenerate. -/
def dnaTable1 : TableData :=
  ⟨["TTG".toList, "CTG".toList, "ATG".toList],
   ["TAA".toList, "TAG".toList, "TGA".toList],
   fun _ => 'X'⟩

/-- The standard (NCBI table 1) codon table as resolved for ambiguous DNA by
the external `Bio.Data.CodonTable` collaborator: the start list carries the
ambiguous codons HTG, MTG, WTG and YTG (each expanding only to unambiguous
starts) and the stop list the ambiguous codons TAR and TRA, in addition to
the unambiguous starts and stops. -/
def ambDnaTable1 : TableData :=
  ⟨["TTG".toList, "CTG".toList, "ATG".toList, "HTG".toList, "MTG".toList,
     "WTG".toList, "YTG".toList],
   ["TAA".toList, "TAG".toList, "TGA".toList, "TAR".toList, "TRA".toList],
   fun _ => 'X'⟩

/-- A random source with constant draws. -/
def constSrc (k : Nat) (q : ℚ) : RSrc := ⟨fun _ => k, fun _ => q⟩

/-- A random source reading its integer draws from a list (0 beyond the end). -/
def listSrc (l : List Nat) : RSrc := ⟨fun n => l.getD n 0, fun _ => 0⟩

/-! ## Basic lemmas about the embedded operations -/

@[simp] theorem alignedCodons_nil : alignedCodons [] = [] := rfl

@[simp] theorem alignedCodons_one (a : Char) : alignedCodons [a] = [] := rfl

@[simp] theorem alignedCodons_two (a b : Char) :
    alignedCodons [a, b] = [] := rfl

@[simp] theorem alignedCodons_cons3 (a b c : Char) (r : List Char) :
    alignedCodons (a :: b :: c :: r) = [a, b, c] :: alignedCodons r := rfl

theorem alignedCodons_short (l : List Char) (h : l.length < 3) :
    alignedCodons l = [] := by
  cases l with
  | nil => rfl
  | cons a t =>
    cases t with
    | nil => rfl
    | cons b t2 =>
      cases t2 with
      | nil => rfl
      | cons c t3 => simp at h; omega

theorem alignedCodons_append : ∀ (xs ys : List Char), xs.length % 3 = 0 →
    alignedCodons (xs ++ ys) = alignedCodons xs ++ alignedCodons ys
  | [], ys, _ => by simp
  | [a], ys, h => by simp at h
  | [a, b], ys, h => by simp at h
  | a :: b :: c :: rest, ys, h => by
    have hr : rest.length % 3 = 0 := by simp at h; omega
    have ih := alignedCodons_append rest ys hr
    simp [alignedCodons, ih]

theorem alignedCodons_three (l : List Char) (h : l.length = 3) :
    alignedCodons l = [l] := by
  cases l with
  | nil => simp at h
  | cons a t =>
    cases t with
    | nil => simp at h
    | cons b t2 =>
      cases t2 with
      | nil => simp at h
      | cons c t3 =>
        cases t3 with
        | nil => rfl
        | cons d t4 => simp at h

theorem mem_allCodons {ls : List Char} {c : List Char} :
    c ∈ allCodons ls ↔ ∃ a ∈ ls, ∃ b ∈ ls, ∃ d ∈ ls, c = [a, b, d] := by
  simp only [allCodons, List.mem_flatMap, List.mem_map]
  constructor
  · rintro ⟨a, ha, b, hb, d, hd, rfl⟩
    exact ⟨a, ha, b, hb, d, hd, rfl⟩
  · rintro ⟨a, ha, b, hb, d, hd, rfl⟩
    exact ⟨a, ha, b, hb, d, hd, rfl⟩

theorem mem_getNonCodons {ls : List Char} {exc : List (List Char)}
    {c : List Char} :
    c ∈ getNonCodons ls exc ↔ c ∈ allCodons ls ∧ c ∉ exc := by
  simp [getNonCodons, List.mem_filter]

theorem getNonCodons_not_exc {ls : List Char} {exc : List (List Char)}
    {c : List Char} (h : c ∈ getNonCodons ls exc) : c ∉ exc :=
  (mem_getNonCodons.1 h).2

theorem getNonCodons_length {ls : List Char} {exc : List (List Char)}
    {c : List Char} (h : c ∈ getNonCodons ls exc) : c.length = 3 := by
  obtain ⟨hall, -⟩ := mem_getNonCodons.1 h
  obtain ⟨a, -, b, -, d, -, rfl⟩ := mem_allCodons.1 hall
  rfl

theorem pyGet_neg_one (l : List α) (h : l ≠ []) :
    pyGet l (-1) = l.get? (l.length - 1) := by
  have h1 : ¬ (0 : Int) ≤ -1 := by norm_num
  have h2 : ((- (-1) : Int)).toNat = 1 := by norm_num
  have h3 : 1 ≤ l.length := List.length_pos.2 h
  rw [pyGet, if_neg h1, h2, if_pos h3]

theorem pyGet_natCast (l : List α) (k : Nat) : pyGet l (k : Int) = l.get? k := by
  simp [pyGet]

/-! ## Lemmas about the weighted picker -/

theorem pickSteps_le :
    ∀ (t : List PLetter) (roll : ℚ) (j : Nat),
      pickSteps t roll = some j → j ≤ t.length
  | [], roll, j => by
    intro h
    rw [pickSteps] at h
    split at h
    · simp at h; omega
    · simp at h
  | l :: ls, roll, j => by
    intro h
    rw [pickSteps] at h
    split at h
    · simp at h; omega
    · simp only [Option.map_eq_some'] at h
      obtain ⟨j0, hj0, rfl⟩ := h
      have := pickSteps_le ls (roll - l.p) j0 hj0
      simp
      omega

theorem pickSteps_some :
    ∀ (t : List PLetter) (roll : ℚ),
      roll ≤ (t.map PLetter.p).sum → ∃ j, pickSteps t roll = some j
  | [], roll => by
    intro h
    simp at h
    exact ⟨0, by rw [pickSteps, if_pos h]⟩
  | l :: ls, roll => by
    intro h
    rw [pickSteps]
    split
    · exact ⟨0, rfl⟩
    · have hle : roll - l.p ≤ (ls.map PLetter.p).sum := by
        simp at h
        linarith
      obtain ⟨j0, hj0⟩ := pickSteps_some ls (roll - l.p) hle
      exact ⟨j0 + 1, by simp [hj0]⟩

theorem pickSteps_pos_weight :
    ∀ (t : List PLetter) (roll : ℚ) (j : Nat), 0 < roll →
      pickSteps t roll = some j →
      1 ≤ j ∧ ∃ pl, t.get? (j - 1) = some pl ∧ 0 < pl.p
  | [], roll, j => by
    intro hpos h
    rw [pickSteps] at h
    split at h
    · linarith
    · simp at h
  | l :: ls, roll, j => by
    intro hpos h
    rw [pickSteps] at h
    split at h
    · linarith
    · simp only [Option.map_eq_some'] at h
      obtain ⟨j0, hj0, rfl⟩ := h
      by_cases hz : roll - l.p ≤ 0
      · have hj00 : j0 = 0 := by
          cases ls with
          | nil => rw [pickSteps, if_pos hz] at hj0; exact (Option.some_inj.1 hj0).symm
          | cons m ms => rw [pickSteps, if_pos hz] at hj0; exact (Option.some_inj.1 hj0).symm
        subst hj00
        exact ⟨le_refl 1, l, rfl, by linarith⟩
      · push_neg at hz
        obtain ⟨h1, pl, hget, hp⟩ :=
          pickSteps_pos_weight ls (roll - l.p) j0 hz hj0
        refine ⟨by omega, pl, ?_, hp⟩
        have he : j0 + 1 - 1 = (j0 - 1) + 1 := by omega
        rw [he]
        simpa using hget

theorem pickSteps_exhaust :
    ∀ (t : List PLetter) (u : ℚ), (∀ pl ∈ t, 0 ≤ pl.p) →
      (t.map PLetter.p).sum < u → pickSteps t u = none
  | [], u => by
    intro _ h
    simp at h
    rw [pickSteps, if_neg (by linarith)]
  | l :: ls, u => by
    intro hnn h
    have hsumnn : 0 ≤ (ls.map PLetter.p).sum :=
      List.sum_nonneg (by
        intro x hx
        obtain ⟨pl, hpl, rfl⟩ := List.mem_map.1 hx
        exact hnn pl (List.mem_cons_of_mem l hpl))
    have hl : 0 ≤ l.p := hnn l (List.mem_cons_self l ls)
    simp only [List.map_cons, List.sum_cons] at h
    rw [pickSteps, if_neg (by linarith),
      pickSteps_exhaust ls (u - l.p)
        (fun pl hpl => hnn pl (List.mem_cons_of_mem l hpl)) (by linarith)]
    rfl

theorem pickOne_mem (t : List PLetter) (roll : ℚ) (ht : t ≠ [])
    (hle : roll ≤ (t.map PLetter.p).sum) :
    ∃ pl ∈ t, pickOne t roll = some pl.letter := by
  obtain ⟨j, hj⟩ := pickSteps_some t roll hle
  cases j with
  | zero =>
    have hlen : t.length - 1 < t.length := by
      have := List.length_pos.2 ht
      omega
    have hget := List.get?_eq_get hlen
    refine ⟨t.get ⟨t.length - 1, hlen⟩, List.get_mem t _ _, ?_⟩
    have hpick : pickOne t roll = (pyGet t (-1)).map PLetter.letter := by
      rw [pickOne, hj]
      norm_num
    rw [hpick, pyGet_neg_one t ht, hget]
    rfl
  | succ k =>
    have hk : k < t.length := by
      have := pickSteps_le t roll _ hj
      omega
    have hget := List.get?_eq_get hk
    refine ⟨t.get ⟨k, hk⟩, List.get_mem t _ _, ?_⟩
    have hpick : pickOne t roll = (pyGet t ((k : Int))).map PLetter.letter := by
      rw [pickOne, hj]
      have hc : ((k + 1 : Nat) : Int) - 1 = (k : Int) := by push_cast; ring
      show (pyGet t (((k + 1 : Nat) : Int) - 1)).map PLetter.letter = _
      rw [hc]
    rw [hpick, pyGet_natCast, hget]
    rfl

theorem pickOne_pos_weight (t : List PLetter) (roll : ℚ) (c : Char)
    (hpos : 0 < roll) (h : pickOne t roll = some c) :
    ∃ pl ∈ t, pl.letter = c ∧ 0 < pl.p := by
  rw [pickOne] at h
  obtain ⟨j, hj, hbind⟩ := Option.bind_eq_some.1 h
  obtain ⟨h1, pl, hget, hp⟩ := pickSteps_pos_weight t roll j hpos hj
  have hcast : ((j : Int) - 1) = ((j - 1 : Nat) : Int) := by omega
  rw [hcast, pyGet_natCast, hget] at hbind
  simp only [Option.map_some', Option.some_inj] at hbind
  exact ⟨pl, List.get?_mem hget, hbind, hp⟩

/-! ## Lemmas about the emission loop -/

theorem scrub_id (ctx : EmitCtx) (hpers : ctx.persistent = false)
    (seq : List Char) (pos : Nat) : scrub ctx seq pos = some (seq, pos) := by
  unfold scrub
  rw [if_neg]
  rintro ⟨-, -, -, habs⟩
  rw [hpers] at habs
  exact Bool.false_ne_true habs

theorem scrub_length (ctx : EmitCtx)
    (hns : ctx.isProt = false → ∀ nc ∈ ctx.nonstopL, nc.length = 3)
    (seq : List Char) (pos : Nat) (s' : List Char) (p' : Nat)
    (h : scrub ctx seq pos = some (s', p')) : s'.length = seq.length := by
  unfold scrub at h
  split at h
  · rename_i hcond
    obtain ⟨h3, -, hpf, -⟩ := hcond
    split at h
    · split at h
      · rename_i nc heq
        simp only [Option.some_inj, Prod.mk.injEq] at h
        obtain ⟨hs, -⟩ := h
        subst hs
        rw [List.length_append, List.length_take,
          hns hpf nc (List.get?_mem heq)]
        omega
      · simp at h
    · simp only [Option.some_inj, Prod.mk.injEq] at h
      obtain ⟨hs, -⟩ := h
      subst hs
      rfl
  · simp only [Option.some_inj, Prod.mk.injEq] at h
    obtain ⟨hs, -⟩ := h
    subst hs
    rfl

theorem scrub_aligned (ctx : EmitCtx)
    (hns : ∀ nc ∈ ctx.nonstopL, nc ∉ ctx.stopL ∧ nc.length = 3)
    (hP : ctx.isProt = false) (hpers : ctx.persistent = true)
    (seq : List Char) (c : Char) (pos : Nat) (s' : List Char) (p' : Nat)
    (hPrev : ∀ cdn ∈ alignedCodons seq, cdn ∉ ctx.stopL)
    (h : scrub ctx (seq ++ [c]) pos = some (s', p')) :
    ∀ cdn ∈ alignedCodons s', cdn ∉ ctx.stopL := by
  have hlen : (seq ++ [c]).length = seq.length + 1 := by simp
  set n := seq.length with hn
  set r := n % 3 with hr
  have hta : (seq.take (n - r)).length = n - r := by
    rw [List.length_take]
    omega
  have htb : (seq.drop (n - r)).length = r := by
    rw [List.length_drop]
    omega
  have hsplit : seq.take (n - r) ++ seq.drop (n - r) = seq :=
    List.take_append_drop _ _
  have halseq : alignedCodons seq = alignedCodons (seq.take (n - r)) := by
    conv_lhs => rw [← hsplit]
    rw [alignedCodons_append (seq.take (n - r)) (seq.drop (n - r))
        (by rw [hta]; omega),
      alignedCodons_short (seq.drop (n - r)) (by rw [htb]; omega)]
    simp
  by_cases hr2 : r = 2
  · -- the appended letter completes a codon and the scrub is live
    have hcond : 3 ≤ (seq ++ [c]).length ∧ (seq ++ [c]).length % 3 = 0 ∧
        ctx.isProt = false ∧ ctx.persistent = true := by
      refine ⟨by rw [hlen]; omega, by rw [hlen]; omega, hP, hpers⟩
    have hlast : lastN 3 (seq ++ [c]) = seq.drop (n - r) ++ [c] := by
      unfold lastN
      rw [hlen]
      conv_lhs => rw [← hsplit, List.append_assoc]
      exact List.drop_left' (by rw [hta]; omega)
    have hal1 : alignedCodons (seq ++ [c]) =
        alignedCodons (seq.take (n - r)) ++ [seq.drop (n - r) ++ [c]] := by
      conv_lhs => rw [← hsplit, List.append_assoc]
      rw [alignedCodons_append (seq.take (n - r)) (seq.drop (n - r) ++ [c])
          (by rw [hta]; omega),
        alignedCodons_three (seq.drop (n - r) ++ [c])
          (by rw [List.length_append, htb]; simp [hr2])]
    unfold scrub at h
    rw [if_pos hcond] at h
    split at h
    · rename_i hstop
      split at h
      · rename_i nc heq
        simp only [Option.some_inj, Prod.mk.injEq] at h
        obtain ⟨hs, -⟩ := h
        subst hs
        obtain ⟨hnc1, hnc2⟩ := hns nc (List.get?_mem heq)
        have htake : (seq ++ [c]).take ((seq ++ [c]).length - 3) =
            seq.take (n - r) := by
          rw [hlen]
          conv_lhs => rw [← hsplit, List.append_assoc]
          exact List.take_left' (by rw [hta]; omega)
        intro cdn hcdn
        rw [htake, alignedCodons_append (seq.take (n - r)) nc
            (by rw [hta]; omega),
          alignedCodons_three nc hnc2] at hcdn
        rcases List.mem_append.1 hcdn with hmem | hmem
        · exact hPrev cdn (by rw [halseq]; exact hmem)
        · rw [List.mem_singleton.1 hmem]
          exact hnc1
      · simp at h
    · rename_i hnotstop
      simp only [Option.some_inj, Prod.mk.injEq] at h
      obtain ⟨hs, -⟩ := h
      subst hs
      intro cdn hcdn
      rw [hal1] at hcdn
      rcases List.mem_append.1 hcdn with hmem | hmem
      · exact hPrev cdn (by rw [halseq]; exact hmem)
      · rw [List.mem_singleton.1 hmem]
        rw [hlast] at hnotstop
        exact hnotstop
  · -- mid-codon append: the scrub guard is false
    have hcond : ¬ (3 ≤ (seq ++ [c]).length ∧ (seq ++ [c]).length % 3 = 0 ∧
        ctx.isProt = false ∧ ctx.persistent = true) := by
      rintro ⟨-, habs, -, -⟩
      rw [hlen] at habs
      omega
    unfold scrub at h
    rw [if_neg hcond] at h
    simp only [Option.some_inj, Prod.mk.injEq] at h
    obtain ⟨hs, -⟩ := h
    subst hs
    intro cdn hcdn
    have : alignedCodons (seq ++ [c]) = alignedCodons seq := by
      conv_lhs => rw [← hsplit, List.append_assoc]
      rw [alignedCodons_append (seq.take (n - r)) (seq.drop (n - r) ++ [c])
          (by rw [hta]; omega),
        alignedCodons_short (seq.drop (n - r) ++ [c])
          (by rw [List.length_append, htb]; simp; omega),
        halseq]
      simp
    rw [this] at hcdn
    exact hPrev cdn hcdn

theorem emitLoop_aligned (ctx : EmitCtx)
    (hns : ∀ nc ∈ ctx.nonstopL, nc ∉ ctx.stopL ∧ nc.length = 3)
    (hP : ctx.isProt = false) (hpers : ctx.persistent = true) :
    ∀ (n : Nat) (seq : List Char) (pos : Nat) (s' : List Char) (p' : Nat),
      (∀ cdn ∈ alignedCodons seq, cdn ∉ ctx.stopL) →
      emitLoop ctx n seq pos = some (s', p') →
      ∀ cdn ∈ alignedCodons s', cdn ∉ ctx.stopL
  | 0, seq, pos, s', p' => by
    intro hPrev h
    rw [emitLoop] at h
    simp only [Option.some_inj, Prod.mk.injEq] at h
    obtain ⟨hs, -⟩ := h
    subst hs
    exact hPrev
  | n + 1, seq, pos, s', p' => by
    intro hPrev h
    rw [emitLoop] at h
    split at h
    · simp at h
    · rename_i c pos1 heq1
      split at h
      · simp at h
      · rename_i seq2 pos2 heq2
        exact emitLoop_aligned ctx hns hP hpers n seq2 pos2 s' p'
          (scrub_aligned ctx hns hP hpers seq c pos1 seq2 pos2 hPrev heq2) h

theorem emitLoop_length (ctx : EmitCtx)
    (hns : ctx.isProt = false → ∀ nc ∈ ctx.nonstopL, nc.length = 3) :
    ∀ (n : Nat) (seq : List Char) (pos : Nat) (s' : List Char) (p' : Nat),
      emitLoop ctx n seq pos = some (s', p') → s'.length = seq.length + n
  | 0, seq, pos, s', p' => by
    intro h
    rw [emitLoop] at h
    simp only [Option.some_inj, Prod.mk.injEq] at h
    obtain ⟨hs, -⟩ := h
    subst hs
    rfl
  | n + 1, seq, pos, s', p' => by
    intro h
    rw [emitLoop] at h
    split at h
    · simp at h
    · rename_i c pos1 heq1
      split at h
      · simp at h
      · rename_i seq2 pos2 heq2
        have h2 := scrub_length ctx hns (seq ++ [c]) pos1 seq2 pos2 heq2
        have h3 := emitLoop_length ctx hns n seq2 pos2 s' p' h
        rw [h3, h2]
        simp
        omega

theorem emitLoop_pred (ctx : EmitCtx) (pred : Char → Prop)
    (hpers : ctx.persistent = false)
    (hone : ∀ pos c p', emitOne ctx pos = some (c, p') → pred c) :
    ∀ (n : Nat) (seq : List Char) (pos : Nat) (s' : List Char) (p' : Nat),
      (∀ c ∈ seq, pred c) → emitLoop ctx n seq pos = some (s', p') →
      ∀ c ∈ s', pred c
  | 0, seq, pos, s', p' => by
    intro hPrev h
    rw [emitLoop] at h
    simp only [Option.some_inj, Prod.mk.injEq] at h
    obtain ⟨hs, -⟩ := h
    subst hs
    exact hPrev
  | n + 1, seq, pos, s', p' => by
    intro hPrev h
    rw [emitLoop] at h
    split at h
    · simp at h
    · rename_i c pos1 heq1
      rw [scrub_id ctx hpers] at h
      simp only [Option.some_inj] at h
      have hstep : ∀ d ∈ seq ++ [c], pred d := by
        intro d hd
        rcases List.mem_append.1 hd with hmem | hmem
        · exact hPrev d hmem
        · rw [List.mem_singleton.1 hmem]
          exact hone pos c pos1 heq1
      exact emitLoop_pred ctx pred hpers hone n (seq ++ [c]) pos1 s' p'
        hstep h

/-! ## Lemmas about codon-set resolution and enforcement -/

theorem resolveCodonSet_nucleotide (α : Alphabet) (tbl : TableData)
    (sym : Char) (h : (seqType α).protein = false) :
    resolveCodonSet α tbl sym =
      ⟨tbl.startCodons, tbl.stopCodons,
        getNonCodons
          (if (seqType α).rna = true then rnaLetters4 else dnaLetters4)
          tbl.stopCodons,
        getNonCodons
          (if (seqType α).rna = true then rnaLetters4 else dnaLetters4)
          tbl.startCodons⟩ := by
  unfold resolveCodonSet
  rw [if_neg]
  rw [h]
  exact Bool.false_ne_true

theorem translateSet_length (tbl : TableData) (sym : Char)
    (stopRef cs : List (List Char)) :
    ∀ c ∈ translateSet tbl sym stopRef cs, c.length = 1 := by
  intro c hc
  obtain ⟨c0, -, hc0⟩ := List.mem_map.1 hc
  rw [← hc0]
  split <;> rfl

theorem resolved_start_length (α : Alphabet) (tbl : TableData) (sym : Char)
    (hst : ∀ c ∈ tbl.startCodons, c.length = 3) :
    ∀ c ∈ (resolveCodonSet α tbl sym).start, c.length = codonWidth α := by
  intro c hc
  rw [codonWidth]
  by_cases hp : (seqType α).protein = true
  · rw [if_pos hp]
    rw [resolveCodonSet] at hc
    rw [if_pos hp] at hc
    exact translateSet_length tbl sym _ _ c hc
  · rw [if_neg hp]
    rw [resolveCodonSet_nucleotide α tbl sym (Bool.not_eq_true _ ▸ hp)] at hc
    exact hst c hc

theorem resolved_stop_length (α : Alphabet) (tbl : TableData) (sym : Char)
    (hst : ∀ c ∈ tbl.stopCodons, c.length = 3) :
    ∀ c ∈ (resolveCodonSet α tbl sym).stop, c.length = codonWidth α := by
  intro c hc
  rw [codonWidth]
  by_cases hp : (seqType α).protein = true
  · rw [if_pos hp]
    rw [resolveCodonSet] at hc
    rw [if_pos hp] at hc
    exact translateSet_length tbl sym _ _ c hc
  · rw [if_neg hp]
    rw [resolveCodonSet_nucleotide α tbl sym (Bool.not_eq_true _ ▸ hp)] at hc
    exact hst c hc

theorem resolved_nonstop_spec (α : Alphabet) (tbl : TableData) (sym : Char)
    (h : (seqType α).protein = false) :
    ∀ nc ∈ (resolveCodonSet α tbl sym).nonstop,
      nc ∉ (resolveCodonSet α tbl sym).stop ∧ nc.length = 3 := by
  intro nc hnc
  rw [resolveCodonSet_nucleotide α tbl sym h] at hnc ⊢
  exact ⟨getNonCodons_not_exc hnc, getNonCodons_length hnc⟩

theorem lastN_append (l r : List α) (n : Nat) (h : r.length = n) :
    lastN n (l ++ r) = r := by
  unfold lastN
  rw [List.length_append, h]
  have he : l.length + n - n = l.length := by omega
  rw [he]
  exact List.drop_left l r

/-- Complete case description of the enforcement phase (lines 244-265). -/
theorem enforceWith_shape (src : RSrc) (x : Nat) (aug : List Char)
    (fromStart toStop : Bool) (cs : CodonSet) (seq : List Char) (pos : Nat)
    (s2 : List Char) (p2 : Nat)
    (h : enforceWith src x aug fromStart toStop cs seq pos = some (s2, p2)) :
    ∃ s1 : List Char,
      ((fromStart = true ∧ (∃ st ∈ cs.start, s1 = st ++ seq.drop x) ∧
          (aug ∈ cs.start → s1 = aug ++ seq.drop x)) ∨
        (fromStart = false ∧ s1 = seq)) ∧
      ((toStop = true ∧ ∃ stp ∈ cs.stop,
          s2 = s1.take (s1.length - x) ++ stp) ∨
        (toStop = false ∧ s2 = s1)) := by
  unfold enforceWith at h
  obtain ⟨⟨s1, p1⟩, heq1, h⟩ := Option.bind_eq_some.1 h
  · refine ⟨s1, ?_, ?_⟩
    · -- analyse how forceStart produced s1
      unfold forceStart at heq1
      split at heq1
      · rename_i hfs
        split at heq1
        · rename_i haug
          simp only [Option.some_inj, Prod.mk.injEq] at heq1
          exact Or.inl ⟨hfs, ⟨aug, haug, heq1.1.symm⟩,
            fun _ => heq1.1.symm⟩
        · rename_i haug
          split at heq1
          · rename_i st hget
            simp only [Option.some_inj, Prod.mk.injEq] at heq1
            exact Or.inl ⟨hfs, ⟨st, List.get?_mem hget, heq1.1.symm⟩,
              fun hmem => absurd hmem haug⟩
          · simp at heq1
      · rename_i hfs
        simp only [Option.some_inj, Prod.mk.injEq] at heq1
        exact Or.inr ⟨Bool.not_eq_true _ ▸ hfs, heq1.1.symm⟩
    · -- analyse the to_stop overwrite
      unfold forceStop at h
      split at h
      · rename_i hts
        split at h
        · rename_i stp hget
          simp only [Option.some_inj, Prod.mk.injEq] at h
          exact Or.inl ⟨hts, stp, List.get?_mem hget, h.1.symm⟩
        · simp at h
      · rename_i hts
        simp only [Option.some_inj, Prod.mk.injEq] at h
        exact Or.inr ⟨Bool.not_eq_true _ ▸ hts, h.1.symm⟩

/-! ## Decomposition of the full pipeline -/

theorem emitPhase_def (src : RSrc) (tbl : TableData) (cfg : Config)
    (pos : Nat) :
    emitPhase src tbl cfg pos =
      emitLoop
        ⟨src, alphabetLetters cfg.alphabet,
          gcProbTable cfg.alphabet cfg.gcTarget,
          (seqType cfg.alphabet).protein,
          resolvedFlag (seqType cfg.alphabet)
            (resolvedMessenger (seqType cfg.alphabet) cfg.messenger)
            cfg.persistent,
          (resolveCodonSet cfg.alphabet tbl cfg.stopSymbol).stop,
          (resolveCodonSet cfg.alphabet tbl cfg.stopSymbol).nonstop⟩
        (effectiveSize cfg) [] pos := rfl

theorem testseqCore_shape (src : RSrc) (tbl : TableData) (cfg : Config)
    (pos : Nat) (out : List Char)
    (h : testseqCore src tbl cfg pos = some out) :
    ∃ seq0 pos1 seq1 pos2,
      emitPhase src tbl cfg pos = some (seq0, pos1) ∧
      enforcePhase src (seqType cfg.alphabet)
        (resolvedFlag (seqType cfg.alphabet)
          (resolvedMessenger (seqType cfg.alphabet) cfg.messenger)
          cfg.fromStart)
        (resolvedFlag (seqType cfg.alphabet)
          (resolvedMessenger (seqType cfg.alphabet) cfg.messenger)
          cfg.toStop)
        (resolveCodonSet cfg.alphabet tbl cfg.stopSymbol) seq0 pos1 =
        some (seq1, pos2) ∧
      ((resolvedMessenger (seqType cfg.alphabet) cfg.messenger = true ∧
          ∃ p3, addMessengerParts src (alphabetLetters cfg.alphabet)
            (resolveCodonSet cfg.alphabet tbl cfg.stopSymbol).start
            (resolveCodonSet cfg.alphabet tbl cfg.stopSymbol).nonstart seq1
            (effectiveSize cfg) pos2 = some (out, p3)) ∨
        (resolvedMessenger (seqType cfg.alphabet) cfg.messenger = false ∧
          out = seq1)) := by
  unfold testseqCore at h
  obtain ⟨⟨seq0, pos1⟩, heq0, h⟩ := Option.bind_eq_some.1 h
  obtain ⟨⟨seq1, pos2⟩, heq1, h⟩ := Option.bind_eq_some.1 h
  refine ⟨seq0, pos1, seq1, pos2, heq0, heq1, ?_⟩
  split at h
  · rename_i hm
    obtain ⟨⟨seq2, p3⟩, heq2, h2⟩ := Option.map_eq_some'.1 h
    simp only at h2
    subst h2
    exact Or.inl ⟨hm, p3, heq2⟩
  · rename_i hm
    simp only [Option.some_inj] at h
    exact Or.inr ⟨Bool.not_eq_true _ ▸ hm, h.symm⟩

theorem addMessengerParts_mod3 (src : RSrc) (ls : List Char)
    (startL nonstartL : List (List Char)) (seq : List Char) (size : Nat)
    (pos : Nat) (s2 : List Char) (p2 : Nat)
    (h : addMessengerParts src ls startL nonstartL seq size pos =
      some (s2, p2)) : s2.length % 3 = 0 := by
  unfold addMessengerParts at h
  obtain ⟨u5p, -, h⟩ := Option.bind_eq_some.1 h
  obtain ⟨u3p, -, h⟩ := Option.bind_eq_some.1 h
  simp only [Option.some_inj, Prod.mk.injEq] at h
  obtain ⟨hs, -⟩ := h
  subst hs
  rw [List.length_take]
  omega

theorem resolvedMessenger_false (ty : SeqType) :
    resolvedMessenger ty false = false := by
  unfold resolvedMessenger
  split <;> rfl

theorem resolvedFlag_false (ty : SeqType) (flag : Bool) :
    resolvedFlag ty false flag = flag := by
  unfold resolvedFlag
  rw [if_neg]
  rintro ⟨-, habs⟩
  exact Bool.false_ne_true habs

theorem effectiveSize_mod3 (cfg : Config)
    (hp : (seqType cfg.alphabet).protein = false) (ht : cfg.truncate = true) :
    effectiveSize cfg % 3 = 0 := by
  unfold effectiveSize
  rw [if_pos ⟨hp, ht⟩]
  omega

theorem effectiveSize_le (cfg : Config) : effectiveSize cfg ≤ cfg.size := by
  unfold effectiveSize
  split
  · omega
  · exact le_refl _

/-- The nonstop list that `testseqCore` threads into the emission loop is
well-formed for nucleotide kinds: 3-letter codons outside the stop set. -/
theorem emit_nonstop_wf (tbl : TableData) (cfg : Config) :
    (seqType cfg.alphabet).protein = false →
    ∀ nc ∈ (resolveCodonSet cfg.alphabet tbl cfg.stopSymbol).nonstop,
      nc.length = 3 :=
  fun hp nc hnc =>
    (resolved_nonstop_spec cfg.alphabet tbl cfg.stopSymbol hp nc hnc).2

/-- Claim C3: for nucleotide kinds, `truncate=true` makes every result length
a multiple of 3, and `truncate=false` makes the generated buffer (before
start/stop enforcement) exactly the requested size. -/
theorem testseq_truncation (src : RSrc) (tbl : TableData) (cfg : Config)
    (hp : (seqType cfg.alphabet).protein = false)
    (hst : ∀ c ∈ tbl.startCodons, c.length = 3)
    (hsp : ∀ c ∈ tbl.stopCodons, c.length = 3) :
    (∀ out, cfg.truncate = true → testseqCore src tbl cfg 0 = some out →
      out.length % 3 = 0) ∧
    (∀ s p, cfg.truncate = false → emitPhase src tbl cfg 0 = some (s, p) →
      s.length = cfg.size) := by
  constructor
  · intro out htr h
    obtain ⟨seq0, pos1, seq1, pos2, hemit, henf, hrest⟩ :=
      testseqCore_shape src tbl cfg 0 out h
    have hlen0 : seq0.length = effectiveSize cfg := by
      have := emitLoop_length _ (emit_nonstop_wf tbl cfg) _ _ _ _ _
        (emitPhase_def src tbl cfg 0 ▸ hemit)
      simpa using this
    have hmod0 : seq0.length % 3 = 0 := by
      rw [hlen0]
      exact effectiveSize_mod3 cfg hp htr
    have hmod1 : seq1.length % 3 = 0 := by
      unfold enforcePhase at henf
      rw [show (if (seqType cfg.alphabet).protein = true then 1 else 3) = 3
        from by rw [hp]; rfl] at henf
      obtain ⟨s1, hfs, hts⟩ := enforceWith_shape _ _ _ _ _ _ _ _ _ _ henf
      have h1 : s1.length % 3 = 0 := by
        rcases hfs with ⟨-, ⟨st, hstm, rfl⟩, -⟩ | ⟨-, rfl⟩
        · rw [List.length_append, List.length_drop]
          have := resolved_start_length cfg.alphabet tbl cfg.stopSymbol hst
            st hstm
          rw [codonWidth, if_neg (by rw [hp]; exact Bool.false_ne_true)]
            at this
          omega
        · exact hmod0
      rcases hts with ⟨-, stp, hstm, rfl⟩ | ⟨-, rfl⟩
      · rw [List.length_append, List.length_take]
        have := resolved_stop_length cfg.alphabet tbl cfg.stopSymbol hsp
          stp hstm
        rw [codonWidth, if_neg (by rw [hp]; exact Bool.false_ne_true)]
          at this
        omega
      · exact h1
    rcases hrest with ⟨-, p3, hmsg⟩ | ⟨-, rfl⟩
    · exact addMessengerParts_mod3 _ _ _ _ _ _ _ _ _ hmsg
    · exact hmod1
  · intro s p htr h
    have hlen : s.length = effectiveSize cfg := by
      have := emitLoop_length _ (emit_nonstop_wf tbl cfg) _ _ _ _ _
        (emitPhase_def src tbl cfg 0 ▸ h)
      simpa using this
    rw [hlen]
    unfold effectiveSize
    rw [if_neg]
    rintro ⟨-, habs⟩
    rw [htr] at habs
    exact Bool.false_ne_true habs

/-- Claim C9: a nucleotide call with effective size under 3 and
`to_stop=true`, `messenger=false` returns exactly one stop codon: the whole
buffer is replaced, and the output is longer than the requested size. -/
theorem testseq_small_size (src : RSrc) (tbl : TableData) (cfg : Config)
    (out : List Char)
    (hp : (seqType cfg.alphabet).protein = false)
    (hts : cfg.toStop = true) (hm : cfg.messenger = false)
    (hsz : cfg.size < 3)
    (hst : ∀ c ∈ tbl.startCodons, c.length = 3)
    (hsp : ∀ c ∈ tbl.stopCodons, c.length = 3)
    (h : testseqCore src tbl cfg 0 = some out) :
    out.length = 3 ∧ out ∈ tbl.stopCodons ∧ cfg.size < out.length := by
  obtain ⟨seq0, pos1, seq1, pos2, hemit, henf, hrest⟩ :=
    testseqCore_shape src tbl cfg 0 out h
  rw [hm, resolvedMessenger_false, resolvedFlag_false, resolvedFlag_false]
    at henf
  have hout : out = seq1 := by
    rcases hrest with ⟨habs, -⟩ | ⟨-, rfl⟩
    · rw [hm, resolvedMessenger_false] at habs
      exact absurd habs Bool.false_ne_true
    · rfl
  subst hout
  have hlen0 : seq0.length = effectiveSize cfg := by
    have := emitLoop_length _ (emit_nonstop_wf tbl cfg) _ _ _ _ _
      (emitPhase_def src tbl cfg 0 ▸ hemit)
    simpa using this
  have hshort : seq0.length < 3 := by
    rw [hlen0]
    have := effectiveSize_le cfg
    omega
  unfold enforcePhase at henf
  rw [show (if (seqType cfg.alphabet).protein = true then 1 else 3) = 3
    from by rw [hp]; rfl] at henf
  obtain ⟨s1, hfs, htsc⟩ := enforceWith_shape _ _ _ _ _ _ _ _ _ _ henf
  have hs1 : s1.length ≤ 3 := by
    rcases hfs with ⟨-, ⟨st, hstm, rfl⟩, -⟩ | ⟨-, rfl⟩
    · rw [List.length_append, List.length_drop]
      have := resolved_start_length cfg.alphabet tbl cfg.stopSymbol hst
        st hstm
      rw [codonWidth, if_neg (by rw [hp]; exact Bool.false_ne_true)] at this
      omega
    · omega
  rcases htsc with ⟨-, stp, hstm, rfl⟩ | ⟨habs, -⟩
  · have htk : s1.take (s1.length - 3) = [] := by
      rw [show s1.length - 3 = 0 from by omega]
      exact List.take_zero s1
    rw [htk, List.nil_append]
    have hstop3 := resolved_stop_length cfg.alphabet tbl cfg.stopSymbol hsp
      stp hstm
    rw [codonWidth, if_neg (by rw [hp]; exact Bool.false_ne_true)] at hstop3
    rw [resolveCodonSet_nucleotide cfg.alphabet tbl cfg.stopSymbol hp]
      at hstm
    exact ⟨hstop3, hstm, by omega⟩
  · rw [hts] at habs
    exact absurd habs (by simp)

/-- Claim C2 (amended): with `messenger=false` and an effective size of at
least two codon widths, `from_start=true` forces the first codon/residue of
the result into the resolved start set and `to_stop=true` forces the last
codon/residue into the resolved stop set. -/
theorem testseq_start_stop (src : RSrc) (tbl : TableData) (cfg : Config)
    (out : List Char)
    (hm : cfg.messenger = false)
    (hst : ∀ c ∈ tbl.startCodons, c.length = 3)
    (hsp : ∀ c ∈ tbl.stopCodons, c.length = 3)
    (hsize : 2 * codonWidth cfg.alphabet ≤ effectiveSize cfg)
    (h : testseqCore src tbl cfg 0 = some out) :
    (cfg.fromStart = true →
      out.take (codonWidth cfg.alphabet) ∈
        (resolveCodonSet cfg.alphabet tbl cfg.stopSymbol).start) ∧
    (cfg.toStop = true →
      lastN (codonWidth cfg.alphabet) out ∈
        (resolveCodonSet cfg.alphabet tbl cfg.stopSymbol).stop) := by
  obtain ⟨seq0, pos1, seq1, pos2, hemit, henf, hrest⟩ :=
    testseqCore_shape src tbl cfg 0 out h
  rw [hm, resolvedMessenger_false, resolvedFlag_false, resolvedFlag_false]
    at henf
  have hout : out = seq1 := by
    rcases hrest with ⟨habs, -⟩ | ⟨-, rfl⟩
    · rw [hm, resolvedMessenger_false] at habs
      exact absurd habs Bool.false_ne_true
    · rfl
  subst hout
  have hlen0 : seq0.length = effectiveSize cfg := by
    have := emitLoop_length _ (emit_nonstop_wf tbl cfg) _ _ _ _ _
      (emitPhase_def src tbl cfg 0 ▸ hemit)
    simpa using this
  unfold enforcePhase at henf
  rw [show (if (seqType cfg.alphabet).protein = true then 1 else 3) =
    codonWidth cfg.alphabet from rfl] at henf
  set x := codonWidth cfg.alphabet with hxdef
  set cs := resolveCodonSet cfg.alphabet tbl cfg.stopSymbol with hcs
  have hx1 : 1 ≤ x := by
    rw [hxdef, codonWidth]
    split <;> omega
  obtain ⟨s1, hfs, hts⟩ := enforceWith_shape _ _ _ _ _ _ _ _ _ _ henf
  have hstartlen : ∀ c ∈ cs.start, c.length = x :=
    resolved_start_length cfg.alphabet tbl cfg.stopSymbol hst
  have hstoplen : ∀ c ∈ cs.stop, c.length = x :=
    resolved_stop_length cfg.alphabet tbl cfg.stopSymbol hsp
  have hs1len : s1.length = seq0.length := by
    rcases hfs with ⟨-, ⟨st, hstm, rfl⟩, -⟩ | ⟨-, rfl⟩
    · rw [List.length_append, List.length_drop, hstartlen st hstm, hlen0]
      omega
    · rfl
  have hs1take : cfg.fromStart = true → s1.take x ∈ cs.start := by
    intro hfst
    rcases hfs with ⟨-, ⟨st, hstm, rfl⟩, -⟩ | ⟨hfsf, -⟩
    · rw [List.take_left' (hstartlen st hstm)]
      exact hstm
    · rw [hfsf] at hfst
      exact absurd hfst (by simp)
  constructor
  · intro hfst
    rcases hts with ⟨-, stp, hstm, rfl⟩ | ⟨-, rfl⟩
    · rw [List.take_append_of_le_length
        (by rw [List.length_take, hs1len, hlen0]; omega)]
      rw [List.take_take, min_eq_left (by rw [hs1len, hlen0]; omega)]
      exact hs1take hfst
    · exact hs1take hfst
  · intro htst
    rcases hts with ⟨-, stp, hstm, rfl⟩ | ⟨htsf, -⟩
    · rw [lastN_append _ _ _ (hstoplen stp hstm)]
      exact hstm
    · rw [htsf] at htst
      exact absurd htst (by simp)

theorem alignedCodons_cons_codon (st z : List Char) (h : st.length = 3) :
    alignedCodons (st ++ z) = st :: alignedCodons z := by
  rw [alignedCodons_append st z (by rw [h]), alignedCodons_three st h]
  rfl

theorem alignedCodons_snoc (l : List Char) (h3 : 3 ≤ l.length)
    (hmod : l.length % 3 = 0) :
    alignedCodons l =
      alignedCodons (l.take (l.length - 3)) ++ [lastN 3 l] := by
  conv_lhs => rw [← List.take_append_drop (l.length - 3) l]
  rw [alignedCodons_append (l.take (l.length - 3)) (l.drop (l.length - 3))
      (by rw [List.length_take]; omega),
    alignedCodons_three (l.drop (l.length - 3))
      (by rw [List.length_drop]; omega)]
  rfl

theorem aligned_mem_drop3 (l : List Char) (h3 : 3 ≤ l.length)
    (cdn : List Char) (h : cdn ∈ alignedCodons (l.drop 3)) :
    cdn ∈ alignedCodons l := by
  have hsplit : alignedCodons l =
      alignedCodons (l.take 3) ++ alignedCodons (l.drop 3) := by
    conv_lhs => rw [← List.take_append_drop 3 l]
    exact alignedCodons_append _ _ (by rw [List.length_take]; omega)
  rw [hsplit]
  exact List.mem_append_right _ h

/-- Claim C1 (amended): with `persistent=true` on a nucleotide kind
(`messenger=false`, `truncate=true`), no aligned 3-symbol codon of the result
other than the forced first codon (when `from_start`) and the forced last
codon (when `to_stop`) is a member of the resolved stop set. -/
theorem testseq_persistent (src : RSrc) (tbl : TableData) (cfg : Config)
    (out : List Char)
    (hp : (seqType cfg.alphabet).protein = false)
    (hpers : cfg.persistent = true)
    (hm : cfg.messenger = false)
    (htr : cfg.truncate = true)
    (hst : ∀ c ∈ tbl.startCodons, c.length = 3)
    (hsp : ∀ c ∈ tbl.stopCodons, c.length = 3)
    (h : testseqCore src tbl cfg 0 = some out) :
    ∀ k cdn, (alignedCodons out).get? k = some cdn →
      (cfg.fromStart = true → k ≠ 0) →
      (cfg.toStop = true → k + 1 ≠ (alignedCodons out).length) →
      cdn ∉ tbl.stopCodons := by
  obtain ⟨seq0, pos1, seq1, pos2, hemit, henf, hrest⟩ :=
    testseqCore_shape src tbl cfg 0 out h
  rw [hm, resolvedMessenger_false, resolvedFlag_false, resolvedFlag_false]
    at henf
  have hout : out = seq1 := by
    rcases hrest with ⟨habs, -⟩ | ⟨-, rfl⟩
    · rw [hm, resolvedMessenger_false] at habs
      exact absurd habs Bool.false_ne_true
    · rfl
  subst hout
  set cs := resolveCodonSet cfg.alphabet tbl cfg.stopSymbol with hcs
  have hstopeq : cs.stop = tbl.stopCodons := by
    rw [hcs, resolveCodonSet_nucleotide cfg.alphabet tbl cfg.stopSymbol hp]
  have hcw : codonWidth cfg.alphabet = 3 := by
    rw [codonWidth, if_neg (by rw [hp]; exact Bool.false_ne_true)]
  have hstartlen : ∀ c ∈ cs.start, c.length = 3 := fun c hc => by
    have := resolved_start_length cfg.alphabet tbl cfg.stopSymbol hst c hc
    rwa [hcw] at this
  have hstoplen : ∀ c ∈ cs.stop, c.length = 3 := fun c hc => by
    have := resolved_stop_length cfg.alphabet tbl cfg.stopSymbol hsp c hc
    rwa [hcw] at this
  -- the emission loop leaves no aligned stop codon in the buffer
  rw [emitPhase_def, hm, resolvedMessenger_false, resolvedFlag_false,
    hpers, hp] at hemit
  have hseq0 : ∀ cdn ∈ alignedCodons seq0, cdn ∉ tbl.stopCodons := by
    intro cdn hc
    have hinv := emitLoop_aligned
      ⟨src, alphabetLetters cfg.alphabet,
        gcProbTable cfg.alphabet cfg.gcTarget, false, true, cs.stop,
        cs.nonstop⟩
      (fun nc hnc =>
        resolved_nonstop_spec cfg.alphabet tbl cfg.stopSymbol hp nc hnc)
      rfl rfl (effectiveSize cfg) [] 0 seq0 pos1
      (by intro c hcabs; simp at hcabs) hemit cdn hc
    rwa [hstopeq] at hinv
  have hlen0 : seq0.length = effectiveSize cfg := by
    have := emitLoop_length _
      (fun _ => emit_nonstop_wf tbl cfg hp) _ _ _ _ _ hemit
    simpa using this
  have hmod0 : seq0.length % 3 = 0 := by
    rw [hlen0]
    exact effectiveSize_mod3 cfg hp htr
  -- analyse the enforcement phase
  unfold enforcePhase at henf
  rw [show (if (seqType cfg.alphabet).protein = true then 1 else 3) = 3
    from by rw [hp]; rfl] at henf
  obtain ⟨s1, hfs, hts⟩ := enforceWith_shape _ _ _ _ _ _ _ _ _ _ henf
  -- structure of the aligned codons of s1
  have hs1mod : s1.length % 3 = 0 := by
    rcases hfs with ⟨-, ⟨st, hstm, rfl⟩, -⟩ | ⟨-, rfl⟩
    · rw [List.length_append, List.length_drop, hstartlen st hstm]
      omega
    · exact hmod0
  -- any non-first codon of s1 lies in the aligned codons of seq0
  have hs1get : ∀ k cdn, (alignedCodons s1).get? k = some cdn →
      (cfg.fromStart = true → k ≠ 0) → cdn ∉ tbl.stopCodons := by
    intro k cdn hk hk0
    rcases hfs with ⟨hfst, ⟨st, hstm, rfl⟩, -⟩ | ⟨hfsf, rfl⟩
    · rw [alignedCodons_cons_codon st _ (hstartlen st hstm)] at hk
      cases k with
      | zero => exact absurd rfl (hk0 hfst)
      | succ k' =>
        rw [List.get?_cons_succ] at hk
        have hmem := List.get?_mem hk
        by_cases h3 : 3 ≤ seq0.length
        · exact hseq0 cdn (aligned_mem_drop3 seq0 h3 cdn hmem)
        · have : seq0.length = 0 := by omega
          rw [List.length_eq_zero.1 this] at hmem
          simp at hmem
    · exact hseq0 cdn (List.get?_mem hk)
  intro k cdn hk hkfs hkts
  rcases hts with ⟨htst, stp, hstpm, rfl⟩ | ⟨htsf, rfl⟩
  · -- the to_stop overwrite
    by_cases hs13 : 3 ≤ s1.length
    · have hB : (s1.take (s1.length - 3)).length = s1.length - 3 := by
        rw [List.length_take]
        omega
      have hAout : alignedCodons (s1.take (s1.length - 3) ++ stp) =
          alignedCodons (s1.take (s1.length - 3)) ++ [stp] := by
        rw [alignedCodons_append _ _ (by rw [hB]; omega),
          alignedCodons_three stp (hstoplen stp hstpm)]
      rw [hAout] at hk hkts
      have hkb : k < (alignedCodons (s1.take (s1.length - 3))).length := by
        obtain ⟨hb, -⟩ := List.get?_eq_some.1 hk
        rw [List.length_append] at hb
        simp at hb
        have hne := hkts htst
        rw [List.length_append] at hne
        simp at hne
        omega
      rw [List.get?_append hkb] at hk
      have hks1 : (alignedCodons s1).get? k = some cdn := by
        rw [alignedCodons_snoc s1 hs13 hs1mod, List.get?_append hkb]
        exact hk
      exact hs1get k cdn hks1 hkfs
    · -- s1 is empty: the output is exactly the forced stop codon
      have hs10 : s1.length = 0 := by omega
      have htk : s1.take (s1.length - 3) = [] := by
        rw [show s1.length - 3 = 0 from by omega]
        exact List.take_zero s1
      rw [htk, List.nil_append] at hk hkts
      rw [alignedCodons_three stp (hstoplen stp hstpm)] at hk hkts
      have : k = 0 := by
        obtain ⟨hb, -⟩ := List.get?_eq_some.1 hk
        simp at hb
        omega
      subst this
      simp at hkts
      rw [htst] at hkts
      exact absurd hkts (by simp)
  · exact hs1get k cdn hk hkfs

/-! ## The weighted picker claims -/

theorem gcProbTable_eq (α : Alphabet) (hp : (seqType α).protein = false)
    (g : Int) :
    gcProbTable α (some g) =
      some (constructProbabilityTable α ((clampGC g : Int) : ℚ)) := by
  show (if (seqType α).protein = true then none
    else some (constructProbabilityTable α ((clampGC g : Int) : ℚ))) = _
  rw [if_neg (by rw [hp]; exact Bool.false_ne_true)]

theorem probTable_gc0 (α : Alphabet) (pl : PLetter)
    (h : pl ∈ constructProbabilityTable α 0) (hpos : 0 < pl.p) :
    ¬(pl.letter = 'G' ∨ pl.letter = 'C' ∨ pl.letter = 'S') := by
  unfold constructProbabilityTable at h
  simp only [List.mem_map] at h
  obtain ⟨l, hl, rfl⟩ := h
  obtain ⟨c0, -, rfl⟩ := hl
  intro habs
  simp only at habs hpos
  rw [if_pos habs] at hpos
  rw [zero_div, zero_div] at hpos
  exact lt_irrefl 0 hpos

theorem probTable_gc100 (α : Alphabet) (pl : PLetter)
    (h : pl ∈ constructProbabilityTable α 100) (hpos : 0 < pl.p) :
    pl.letter = 'G' ∨ pl.letter = 'C' ∨ pl.letter = 'S' := by
  unfold constructProbabilityTable at h
  simp only [List.mem_map] at h
  obtain ⟨l, hl, rfl⟩ := h
  obtain ⟨c0, -, rfl⟩ := hl
  by_contra habs
  simp only at habs hpos
  rw [if_neg habs] at hpos
  rw [sub_self, zero_div, zero_div] at hpos
  exact lt_irrefl 0 hpos

theorem pickOne_gc0 (α : Alphabet) (u : ℚ) (c : Char) (h0 : 0 < u)
    (h : pickOne (constructProbabilityTable α 0) u = some c) :
    ¬(c = 'G' ∨ c = 'C' ∨ c = 'S') := by
  obtain ⟨pl, hmem, hlet, hpos⟩ := pickOne_pos_weight _ u c h0 h
  rw [← hlet]
  exact probTable_gc0 α pl hmem hpos

theorem pickOne_gc100 (α : Alphabet) (u : ℚ) (c : Char) (h0 : 0 < u)
    (h : pickOne (constructProbabilityTable α 100) u = some c) :
    c = 'G' ∨ c = 'C' ∨ c = 'S' := by
  obtain ⟨pl, hmem, hlet, hpos⟩ := pickOne_pos_weight _ u c h0 h
  rw [← hlet]
  exact probTable_gc100 α pl hmem hpos

/-- Claim C5 (counterexample): when the walk exhausts the table - the weights
reaching `_pick_one` effectively sum below the draw, the very state
floating-point summation can produce for a normalized table - the picker
does not clamp to the last entry and does not return a letter: it indexes
past the end of the table, Python's IndexError (`none` here).  The draw
9999/10000 lies in [0,1). -/
theorem pickOne_exhaust_counterexample :
    pickOne [PLetter.mk 'A' (4999 / 10000), PLetter.mk 'B' (4999 / 10000)]
      (9999 / 10000) = none ∧
    (0 : ℚ) ≤ 9999 / 10000 ∧ (9999 : ℚ) / 10000 < 1 := by
  refine ⟨by with_unfolding_all rfl, by norm_num, by norm_num⟩

/-- Claim C5 (amended): whenever the weights cover the draw (`u ≤` their sum,
which holds for every exactly-normalized table and `u < 1`), `_pick_one`
stops inside the table and returns one of its letters, never indexing out of
range; but when the draw exceeds the (nonnegative) weight total - the
exhaustion case the claim describes - the picker does NOT clamp to the last
table entry: it walks past the end of the table and raises. -/
theorem pickOne_walk (t : List PLetter) (u : ℚ) :
    (t ≠ [] → u ≤ (t.map PLetter.p).sum →
      pickOne t u ≠ none ∧
      ∀ c, pickOne t u = some c → c ∈ t.map PLetter.letter) ∧
    ((∀ pl ∈ t, 0 ≤ pl.p) → (t.map PLetter.p).sum < u →
      pickOne t u = none) := by
  constructor
  · intro ht hle
    obtain ⟨pl, hmem, hpick⟩ := pickOne_mem t u ht hle
    constructor
    · rw [hpick]
      exact Option.some_ne_none _
    · intro c hc
      rw [hpick, Option.some_inj] at hc
      rw [← hc]
      exact List.mem_map_of_mem _ hmem
  · intro hnn hlt
    rw [pickOne, pickSteps_exhaust t u hnn hlt]
    rfl

/-- Claim C10: a draw of exactly 0 makes `_pick_one` return the last table
entry (Python indexes the table at -1), whatever the weights are - in
particular a letter whose weight is 0 can be returned. -/
theorem pickOne_zero_last :
    (∀ t : List PLetter, pickOne t 0 = t.getLast?.map PLetter.letter) ∧
    pickOne [PLetter.mk 'A' 1, PLetter.mk 'C' 0] 0 = some 'C' := by
  have hmain : ∀ t : List PLetter,
      pickOne t 0 = t.getLast?.map PLetter.letter := by
    intro t
    have hsteps : pickSteps t 0 = some 0 := by
      cases t with
      | nil => rw [pickSteps, if_pos le_rfl]
      | cons a ts => rw [pickSteps, if_pos le_rfl]
    rw [pickOne, hsteps]
    show (pyGet t (((0 : Nat) : Int) - 1)).map PLetter.letter = _
    rw [show ((0 : Nat) : Int) - 1 = -1 from by norm_num]
    cases t with
    | nil => rfl
    | cons a ts =>
      rw [pyGet_neg_one _ (by simp), List.get?_eq_getElem?,
        List.getLast?_eq_getElem?]
  exact ⟨hmain, by rw [hmain]; rfl⟩

theorem emitOne_pred (t : List PLetter) (src : RSrc) (ls : List Char)
    (isProt pers : Bool) (stopL nonstopL : List (List Char))
    (pred : Char → Prop)
    (hpick : ∀ pos c, pickOne t (src.gFloats pos) = some c → pred c) :
    ∀ pos c p',
      emitOne ⟨src, ls, some t, isProt, pers, stopL, nonstopL⟩ pos =
        some (c, p') → pred c := by
  intro pos c p' h
  unfold emitOne at h
  split at h
  · rename_i t' heq
    simp only [Option.some_inj] at heq
    subst heq
    split at h
    · rename_i c' hpk
      simp only [Option.some_inj, Prod.mk.injEq] at h
      obtain ⟨rfl, -⟩ := h
      exact hpick pos c' hpk
    · simp at h
  · rename_i heq
    simp at heq

/-- With all post-processing flags off, the output of `testseqCore` is exactly
the freely generated buffer, so any per-draw guarantee of the weighted picker
carries over to every output symbol. -/
theorem testseq_free_pred (src : RSrc) (tbl : TableData) (cfg : Config)
    (out : List Char) (pred : Char → Prop) (g : Int)
    (hp : (seqType cfg.alphabet).protein = false)
    (hgc : cfg.gcTarget = some g) (hpers : cfg.persistent = false)
    (hm : cfg.messenger = false) (hfs : cfg.fromStart = false)
    (hts : cfg.toStop = false)
    (hpick : ∀ pos c, pickOne
      (constructProbabilityTable cfg.alphabet ((clampGC g : Int) : ℚ))
      (src.gFloats pos) = some c → pred c)
    (h : testseqCore src tbl cfg 0 = some out) :
    ∀ c ∈ out, pred c := by
  obtain ⟨seq0, pos1, seq1, pos2, hemit, henf, hrest⟩ :=
    testseqCore_shape src tbl cfg 0 out h
  rw [hm, resolvedMessenger_false, resolvedFlag_false, resolvedFlag_false]
    at henf
  have hout : out = seq1 := by
    rcases hrest with ⟨habs, -⟩ | ⟨-, rfl⟩
    · rw [hm, resolvedMessenger_false] at habs
      exact absurd habs Bool.false_ne_true
    · rfl
  subst hout
  unfold enforcePhase at henf
  obtain ⟨s1, hfs1, hts1⟩ := enforceWith_shape _ _ _ _ _ _ _ _ _ _ henf
  rcases hts1 with ⟨habs, -⟩ | ⟨-, rfl⟩
  · rw [hts] at habs
    exact absurd habs (by simp)
  rcases hfs1 with ⟨habs, -⟩ | ⟨-, rfl⟩
  · rw [hfs] at habs
    exact absurd habs (by simp)
  rw [emitPhase_def, hm, resolvedMessenger_false, resolvedFlag_false, hpers,
    hgc, gcProbTable_eq cfg.alphabet hp g] at hemit
  exact emitLoop_pred _ pred rfl
    (emitOne_pred _ src _ _ _ _ _ pred hpick)
    (effectiveSize cfg) [] 0 _ _ (by intro c hc; simp at hc) hemit

/-- Claim C6 (amended): with every uniform draw strictly between 0 and 1,
`gc_target=0` yields no G/C/S symbol and `gc_target=100` yields only G/C/S
symbols in the freely generated region (the whole output when the
enforcement flags are off).  Draws of exactly 0 are excluded: they make the
picker return the table's last letter regardless of its weight. -/
theorem testseq_gc_extremes (src : RSrc) (tbl : TableData)
    (hdraw : ∀ n, 0 < src.gFloats n ∧ src.gFloats n < 1) :
    (∀ cfg out, (seqType cfg.alphabet).protein = false →
      cfg.gcTarget = some 0 → cfg.persistent = false →
      cfg.messenger = false → cfg.fromStart = false → cfg.toStop = false →
      testseqCore src tbl cfg 0 = some out →
      ∀ c ∈ out, ¬(c = 'G' ∨ c = 'C' ∨ c = 'S')) ∧
    (∀ cfg out, (seqType cfg.alphabet).protein = false →
      cfg.gcTarget = some 100 → cfg.persistent = false →
      cfg.messenger = false → cfg.fromStart = false → cfg.toStop = false →
      testseqCore src tbl cfg 0 = some out →
      ∀ c ∈ out, c = 'G' ∨ c = 'C' ∨ c = 'S') := by
  constructor
  · intro cfg out hp hgc hpers hm hfs hts h
    refine testseq_free_pred src tbl cfg out _ 0 hp hgc hpers hm hfs hts
      ?_ h
    intro pos c hpk
    rw [show ((clampGC 0 : Int) : ℚ) = 0 from by norm_num [clampGC]] at hpk
    exact pickOne_gc0 cfg.alphabet _ c (hdraw pos).1 hpk
  · intro cfg out hp hgc hpers hm hfs hts h
    refine testseq_free_pred src tbl cfg out _ 100 hp hgc hpers hm hfs hts
      ?_ h
    intro pos c hpk
    rw [show ((clampGC 100 : Int) : ℚ) = 100 from by norm_num [clampGC]]
      at hpk
    exact pickOne_gc100 cfg.alphabet _ c (hdraw pos).1 hpk

/-! ## Poly-A tail, codon-set invariant and determinism claims -/

/-- Claim C4 (counterexample): the claim caps the tail at 100, but Python's
`randint(50, 101)` is inclusive of 101, so the integer-draw value 51 gives a
tail of 101 symbols; fed through the decorator with an empty UTR budget and a
3-symbol coding sequence this yields a 102-symbol result (104 trimmed). -/
theorem polyA_tail_counterexample :
    polyATailLen 51 = 101 ∧ ¬ polyATailLen 51 ≤ 100 ∧
    (addMessengerParts (constSrc 51 0) "GAUC".toList [] [] "AUG".toList 0
      0).map (fun r => r.1.length) = some 102 := by
  refine ⟨by decide, by decide, by decide⟩

/-- Claim C4 (amended): the poly-A tail length is drawn uniformly from the
integer range [50, 101] - it always lies in that range and every value of
the range is attainable - so the tail before trimming is at most 101 (not
100) symbols long. -/
theorem polyA_tail_range :
    (∀ k, 50 ≤ polyATailLen k ∧ polyATailLen k ≤ 101) ∧
    (∀ m, 50 ≤ m → m ≤ 101 → polyATailLen (m - 50) = m) := by
  constructor
  · intro k
    unfold polyATailLen
    have := Nat.mod_lt k (show 0 < 52 by omega)
    omega
  · intro m h1 h2
    unfold polyATailLen
    rw [Nat.mod_eq_of_lt (by omega)]
    omega

/-- Claim C7 (counterexample): the resolved stop set of the ambiguous-DNA
standard table contains the ambiguous codon TAR, which is not one of the 64
unambiguous triples, so stop ∪ nonstop does not equal the 64-triple set. -/
theorem codonSet_union_counterexample :
    "TAR".toList ∈ (resolveCodonSet .ambiguousDna ambDnaTable1 '*').stop ∧
    "TAR".toList ∉ allCodons dnaLetters4 := by
  refine ⟨by decide, by decide⟩

/-- Claim C7 (amended): for nucleotide kinds, nonstart/nonstop are disjoint
from start/stop, start ∪ nonstart and stop ∪ nonstop cover all 64 unambiguous
triples, and they equal that set exactly when the table's codon lists contain
only unambiguous triples. -/
theorem codonSet_complement (α : Alphabet) (tbl : TableData) (sym : Char)
    (hp : (seqType α).protein = false) :
    (∀ c ∈ (resolveCodonSet α tbl sym).nonstart,
      c ∉ (resolveCodonSet α tbl sym).start) ∧
    (∀ c ∈ (resolveCodonSet α tbl sym).nonstop,
      c ∉ (resolveCodonSet α tbl sym).stop) ∧
    (∀ c ∈ allCodons
        (if (seqType α).rna = true then rnaLetters4 else dnaLetters4),
      c ∈ (resolveCodonSet α tbl sym).start ∨
        c ∈ (resolveCodonSet α tbl sym).nonstart) ∧
    (∀ c ∈ allCodons
        (if (seqType α).rna = true then rnaLetters4 else dnaLetters4),
      c ∈ (resolveCodonSet α tbl sym).stop ∨
        c ∈ (resolveCodonSet α tbl sym).nonstop) ∧
    ((∀ c ∈ tbl.startCodons, c ∈ allCodons
        (if (seqType α).rna = true then rnaLetters4 else dnaLetters4)) →
      ∀ c, c ∈ (resolveCodonSet α tbl sym).start ∨
          c ∈ (resolveCodonSet α tbl sym).nonstart →
        c ∈ allCodons
          (if (seqType α).rna = true then rnaLetters4 else dnaLetters4)) ∧
    ((∀ c ∈ tbl.stopCodons, c ∈ allCodons
        (if (seqType α).rna = true then rnaLetters4 else dnaLetters4)) →
      ∀ c, c ∈ (resolveCodonSet α tbl sym).stop ∨
          c ∈ (resolveCodonSet α tbl sym).nonstop →
        c ∈ allCodons
          (if (seqType α).rna = true then rnaLetters4 else dnaLetters4)) := by
  rw [resolveCodonSet_nucleotide α tbl sym hp]
  refine ⟨?_, ?_, ?_, ?_, ?_, ?_⟩
  · intro c hc
    exact getNonCodons_not_exc hc
  · intro c hc
    exact getNonCodons_not_exc hc
  · intro c hc
    by_cases hmem : c ∈ tbl.startCodons
    · exact Or.inl hmem
    · exact Or.inr (mem_getNonCodons.2 ⟨hc, hmem⟩)
  · intro c hc
    by_cases hmem : c ∈ tbl.stopCodons
    · exact Or.inl hmem
    · exact Or.inr (mem_getNonCodons.2 ⟨hc, hmem⟩)
  · intro hsub c hc
    rcases hc with hc | hc
    · exact hsub c hc
    · exact (mem_getNonCodons.1 hc).1
  · intro hsub c hc
    rcases hc with hc | hc
    · exact hsub c hc
    · exact (mem_getNonCodons.1 hc).1

/-- Claim C8: with an explicit seed, the call reseeds the process-wide random
source (line 199) before any draw, so the result is a pure function of the
seed and the arguments: whatever state earlier calls left behind is
irrelevant. -/
theorem testseq_deterministic (seedStreams : ℚ → RSrc)
    (prior1 prior2 : RngState) (s : ℚ) (tbl : TableData) (cfg : Config) :
    testseqTop seedStreams prior1 (some s) tbl cfg =
      testseqTop seedStreams prior2 (some s) tbl cfg := rfl

/-! ## Counterexamples and witnesses on concrete inputs -/

/-- Claim C1 (counterexample): with `persistent=true` on unambiguous DNA
(table 1, no enforcement, so the whole output is internally generated), the
draws 1,2,1,1,1,2 generate ATAAAT, whose 3-symbol window at offset 1 is the
stop codon TAA: only aligned codons are scrubbed, not every window. -/
theorem persistent_window_counterexample :
    testseqCore (listSrc [1, 2, 1, 1, 1, 2]) dnaTable1
      ⟨6, .unambiguousDna, none, true, false, false, '*', true, false⟩ 0 =
      some "ATAAAT".toList ∧
    ("ATAAAT".toList.drop 1).take 3 ∈ dnaTable1.stopCodons := by
  refine ⟨by decide, by decide⟩

/-- Claim C1 (witness): a run where the amended statement bites: the middle
aligned codon GGG of ATGGGGTAA is not a stop codon. -/
theorem persistent_aligned_witness :
    testseqCore (constSrc 0 0) dnaTable1
      ⟨10, .unambiguousDna, none, true, true, true, '*', true, false⟩ 0 =
      some "ATGGGGTAA".toList ∧
    "GGG".toList ∉ dnaTable1.stopCodons := by
  refine ⟨by decide, ?_⟩
  exact testseq_persistent (constSrc 0 0) dnaTable1
    ⟨10, .unambiguousDna, none, true, true, true, '*', true, false⟩
    "ATGGGGTAA".toList (by decide) (by decide) (by decide) (by decide)
    (by decide) (by decide) (by decide) 1 "GGG".toList (by decide)
    (fun _ => by decide) (fun _ => by decide)

/-- Claim C2 (counterexample): at size 3 with both flags set, the stop
overwrite clobbers the forced start codon: the whole output is the stop codon
TAA, whose first codon is not in the start set. -/
theorem start_stop_counterexample :
    testseqCore (constSrc 0 0) dnaTable1
      ⟨3, .unambiguousDna, none, true, true, true, '*', true, false⟩ 0 =
      some "TAA".toList ∧
    "TAA".toList.take 3 ∉
      (resolveCodonSet .unambiguousDna dnaTable1 '*').start := by
  refine ⟨by decide, by decide⟩

/-- Claim C2 (witness): at size 6 both enforced codons survive: ATGTAA starts
with a start codon and ends with a stop codon. -/
theorem start_stop_witness :
    testseqCore (constSrc 0 0) dnaTable1
      ⟨6, .unambiguousDna, none, true, true, true, '*', true, false⟩ 0 =
      some "ATGTAA".toList ∧
    "ATGTAA".toList.take (codonWidth .unambiguousDna) ∈
      (resolveCodonSet .unambiguousDna dnaTable1 '*').start ∧
    lastN (codonWidth .unambiguousDna) "ATGTAA".toList ∈
      (resolveCodonSet .unambiguousDna dnaTable1 '*').stop := by
  have h := testseq_start_stop (constSrc 0 0) dnaTable1
    ⟨6, .unambiguousDna, none, true, true, true, '*', true, false⟩
    "ATGTAA".toList (by decide) (by decide) (by decide) (by decide)
    (by decide)
  exact ⟨by decide, h.1 rfl, h.2 rfl⟩

/-- Claim C3 (witness): a size-10 truncated DNA call returns 9 symbols
(a multiple of 3), and with `truncate=false` the emitted buffer is exactly
10 symbols. -/
theorem truncation_witness :
    testseqCore (constSrc 0 0) dnaTable1
      ⟨10, .unambiguousDna, none, true, true, true, '*', true, false⟩ 0 =
      some "ATGGGGTAA".toList ∧
    "ATGGGGTAA".toList.length % 3 = 0 ∧
    "GGGGGGGGGG".toList.length = 10 := by
  refine ⟨by decide, ?_, ?_⟩
  · exact (testseq_truncation (constSrc 0 0) dnaTable1
      ⟨10, .unambiguousDna, none, true, true, true, '*', true, false⟩
      (by decide) (by decide) (by decide)).1 "ATGGGGTAA".toList rfl
      (by decide)
  · exact (testseq_truncation (constSrc 0 0) dnaTable1
      ⟨10, .unambiguousDna, none, true, true, true, '*', false, false⟩
      (by decide) (by decide) (by decide)).2 "GGGGGGGGGG".toList 10 rfl
      (by decide)

/-- Claim C4 (witness): the integer-draw value 0 gives a 50-symbol tail, and
the length 77 is attained by the draw 27. -/
theorem polyA_tail_witness :
    (50 ≤ polyATailLen 0 ∧ polyATailLen 0 ≤ 101) ∧
    polyATailLen (77 - 50) = 77 := by
  exact ⟨polyA_tail_range.1 0, polyA_tail_range.2 77 (by decide) (by decide)⟩

/-- Claim C5 (witness): both regimes of the amended statement at concrete
inputs: the covered walk on the normalized table {A: 1/2, B: 1/2} with draw
1/3 returns a letter, and the uncovered walk on weights summing to 1/2 with
draw 3/4 runs off the table. -/
theorem pickOne_walk_witness :
    pickOne [PLetter.mk 'A' (1 / 2), PLetter.mk 'B' (1 / 2)] (1 / 3) ≠
      none ∧
    pickOne [PLetter.mk 'A' (1 / 4), PLetter.mk 'B' (1 / 4)] (3 / 4) =
      none := by
  constructor
  · refine ((pickOne_walk [PLetter.mk 'A' (1 / 2), PLetter.mk 'B' (1 / 2)]
      (1 / 3)).1 (by simp) ?_).1
    simp
    norm_num
  · refine (pickOne_walk [PLetter.mk 'A' (1 / 4), PLetter.mk 'B' (1 / 4)]
      (3 / 4)).2 ?_ ?_
    · intro pl hpl
      simp at hpl
      rcases hpl with rfl | rfl <;> norm_num
    · simp
      norm_num

/-- Claim C6 (counterexample): a uniform draw of exactly 0 makes the picker
return the table's last letter - for unambiguous DNA that is C - so a
gc_target=0 call can still emit a G/C symbol. -/
theorem gc_zero_counterexample :
    testseqCore (constSrc 0 0) dnaTable1
      ⟨1, .unambiguousDna, some 0, false, false, false, '*', false, false⟩
      0 = some ['C'] ∧
    ('C' = 'G' ∨ 'C' = 'C' ∨ 'C' = 'S') := by
  refine ⟨by with_unfolding_all rfl, by decide⟩

/-- Claim C6 (witness): with the constant draw 1/2 (strictly inside (0,1)),
a gc_target=0 call emits A, which is not a G/C/S symbol. -/
theorem gc_extremes_witness :
    testseqCore (constSrc 0 (1 / 2)) dnaTable1
      ⟨1, .unambiguousDna, some 0, false, false, false, '*', false, false⟩
      0 = some ['A'] ∧
    ¬('A' = 'G' ∨ 'A' = 'C' ∨ 'A' = 'S') := by
  refine ⟨by with_unfolding_all rfl, ?_⟩
  exact (testseq_gc_extremes (constSrc 0 (1 / 2)) dnaTable1
      (fun n => ⟨by norm_num [constSrc], by norm_num [constSrc]⟩)).1
    ⟨1, .unambiguousDna, some 0, false, false, false, '*', false, false⟩
    ['A'] (by decide) rfl rfl rfl rfl rfl (by with_unfolding_all rfl)
    'A' (by decide)

/-- Claim C7 (witness): for unambiguous DNA with the standard table, the
codon AAA is covered by start ∪ nonstart. -/
theorem codonSet_complement_witness :
    "AAA".toList ∈ (resolveCodonSet .unambiguousDna dnaTable1 '*').start ∨
    "AAA".toList ∈ (resolveCodonSet .unambiguousDna dnaTable1 '*').nonstart := by
  exact (codonSet_complement .unambiguousDna dnaTable1 '*'
    (by decide)).2.2.1 "AAA".toList (by decide)

/-- Claim C9 (witness): the requested size 2 with `to_stop=true` returns the
3-symbol stop codon TAA, longer than the request. -/
theorem small_size_witness :
    testseqCore (constSrc 0 0) dnaTable1
      ⟨2, .unambiguousDna, none, false, false, true, '*', false, false⟩ 0 =
      some "TAA".toList ∧
    ("TAA".toList.length = 3 ∧ "TAA".toList ∈ dnaTable1.stopCodons ∧
      (2 : Nat) < "TAA".toList.length) := by
  refine ⟨by decide, ?_⟩
  exact testseq_small_size (constSrc 0 0) dnaTable1
    ⟨2, .unambiguousDna, none, false, false, true, '*', false, false⟩
    "TAA".toList (by decide) (by decide) (by decide) (by decide) (by decide)
    (by decide) (by decide)

-- sanity checks of the basic model
example : pyGet ['a', 'b', 'c'] (-1) = some 'c' := by decide
example : pyGet ['a', 'b', 'c'] 3 = none := by decide
example : lastN 3 ['a', 'b', 'c', 'd'] = ['b', 'c', 'd'] := by decide
example : alignedCodons ['a', 'b', 'c', 'd'] = [['a', 'b', 'c']] := by decide
example : (allCodons dnaLetters4).length = 64 := by decide
example :
    testseqCore (constSrc 0 0) dnaTable1
      ⟨30, .unambiguousDna, none, true, true, true, '*', true, false⟩ 0 =
    some "ATGGGGGGGGGGGGGGGGGGGGGGGGGTAA".toList := by decide
